import Mathlib

/-!
Verification of the step-size machinery of the base HMC sampler
(src/stan/mcmc/hmc/base_hmc.hpp) and of the io writer constructor
(src/stan/io/writer.hpp).

Modelling conventions.

Doubles.  A C++ double is modelled by the inductive type Dbl below: NaN,
the two infinities, and finite values carried as exact rationals.
Comparisons follow IEEE semantics (every comparison with NaN is false).
General double arithmetic (the energy subtraction H0 - h and the jitter
product) is modelled exactly over the rationals; the claims about these
operations concern control flow and interval bounds, not rounding.

Step-size scaling.  Every finite double is an integer multiple of
2 ^ (-1074), the smallest positive double.  The search loop touches the
nominal step size only through multiplication by 2.0 and by 0.5 and
through the comparisons with 0 and 1e7.  Multiplication by 2.0 is exact
for every value reachable below the 1e7 guard, and multiplication by 0.5
is exact except on the subnormal grid, where IEEE rounds to the nearest
multiple of 2 ^ (-1074) with ties to even and finally underflows to 0.
The function gridRound implements exactly that rounding, so repeated
halving reaches 0 after finitely many steps, as it does for doubles;
this underflow is what the reaches-zero fatal error of the search
depends on.

Collaborators.  The Hamiltonian operations sample_p, init and H and the
integrator operation evolve are template parameters of base_hmc consumed
through a fixed contract; they are modelled as a record of pure
functions, with the random number generator threaded as an explicit
state of abstract type R.  Loggers only receive diagnostic text and are
not modelled.

The constant std::log(0.8) is a double whose exact bits are
implementation defined; no property proved here depends on its value, so
it is a parameter log08 of the definitions.

The while loop of init_stepsize is given explicit fuel; the result type
SResult has one constructor per exit path of the C++ code: the early
return for extreme step sizes, the break followed by the restore of the
point, the two thrown runtime errors, and exhaustion of the fuel.  Each
constructor carries the sampler state (and generator state) at that
exit, so that theorems can speak about the state left behind by each
path.
-/

namespace Stan

/-- Model of a C++ double: NaN, the infinities, or a finite value carried
as an exact rational. -/
inductive Dbl where
  | nan
  | pinf
  | ninf
  | fin (q : ℚ)
deriving DecidableEq

namespace Dbl

/-- The isnan test of boost::math::isnan. -/
def isNaN : Dbl → Bool
  | .nan => true
  | _ => false

/-- IEEE subtraction, used for delta_H = H0 - h.  Any NaN operand and the
indeterminate form inf - inf give NaN; finite values subtract exactly. -/
def sub : Dbl → Dbl → Dbl
  | .nan, _ => .nan
  | _, .nan => .nan
  | .pinf, .pinf => .nan
  | .pinf, _ => .pinf
  | .ninf, .ninf => .nan
  | .ninf, _ => .ninf
  | .fin _, .pinf => .ninf
  | .fin _, .ninf => .pinf
  | .fin a, .fin b => .fin (a - b)

/-- IEEE addition (used for 1.0 + jitter * (2 u - 1)). -/
def add : Dbl → Dbl → Dbl
  | .nan, _ => .nan
  | _, .nan => .nan
  | .pinf, .ninf => .nan
  | .pinf, _ => .pinf
  | .ninf, .pinf => .nan
  | .ninf, _ => .ninf
  | .fin _, .pinf => .pinf
  | .fin _, .ninf => .ninf
  | .fin a, .fin b => .fin (a + b)

/-- IEEE multiplication; finite products are modelled exactly. -/
def mul : Dbl → Dbl → Dbl
  | .nan, _ => .nan
  | _, .nan => .nan
  | .pinf, .pinf => .pinf
  | .pinf, .ninf => .ninf
  | .pinf, .fin b => if 0 < b then .pinf else if b < 0 then .ninf else .nan
  | .ninf, .pinf => .ninf
  | .ninf, .ninf => .pinf
  | .ninf, .fin b => if 0 < b then .ninf else if b < 0 then .pinf else .nan
  | .fin a, .pinf => if 0 < a then .pinf else if a < 0 then .ninf else .nan
  | .fin a, .ninf => if 0 < a then .ninf else if a < 0 then .pinf else .nan
  | .fin a, .fin b => .fin (a * b)

/-- IEEE comparison d > c against a finite constant: false on NaN. -/
def gtQ : Dbl → ℚ → Bool
  | .nan, _ => false
  | .pinf, _ => true
  | .ninf, _ => false
  | .fin x, c => decide (c < x)

/-- IEEE comparison d < c against a finite constant: false on NaN. -/
def ltQ : Dbl → ℚ → Bool
  | .nan, _ => false
  | .pinf, _ => false
  | .ninf, _ => true
  | .fin x, c => decide (x < c)

/-- IEEE comparison d <= c against a finite constant: false on NaN. -/
def leQ : Dbl → ℚ → Bool
  | .nan, _ => false
  | .pinf, _ => false
  | .ninf, _ => true
  | .fin x, c => decide (x ≤ c)

/-- IEEE comparison d >= c against a finite constant: false on NaN. -/
def geQ : Dbl → ℚ → Bool
  | .nan, _ => false
  | .pinf, _ => true
  | .ninf, _ => false
  | .fin x, c => decide (c ≤ x)

/-- IEEE equality d == c against a finite constant: false on NaN. -/
def eqQ : Dbl → ℚ → Bool
  | .nan, _ => false
  | .pinf, _ => false
  | .ninf, _ => false
  | .fin x, c => decide (x = c)

/-- Conversion of a double to bool as in the C++ test if (epsilon_jitter_):
every value other than plus or minus zero is true, including NaN. -/
def truthy : Dbl → Bool
  | .nan => true
  | .pinf => true
  | .ninf => true
  | .fin x => decide (x ≠ 0)

end Dbl

/-- The step size as a multiple of 2 ^ (-1074), the smallest positive
double: grid n is the value of that double. -/
def grid (n : ℕ) : ℚ := (n : ℚ) / 2 ^ (1074 : ℕ)

/-- The divergence threshold 1e7 of the step-size search (exactly
representable as a double). -/
def stepsizeMax : ℚ := 10 ^ 7

/-- The threshold 1e7 expressed on the 2 ^ (-1074) grid. -/
def gridMax : ℕ := 10 ^ 7 * 2 ^ 1074

/-- Round a rational to the nearest multiple of 2 ^ (-1074), ties to
even: the IEEE rounding applied when a value falls below the normal
range.  On every multiple of the grid (hence on every exact half of a
double that is itself representable) it is the identity. -/
def gridRound (y : ℚ) : ℚ :=
  ((if Int.fract (y * 2 ^ (1074 : ℕ)) = 1 / 2 then
      (if 2 ∣ ⌊y * 2 ^ (1074 : ℕ)⌋ then ⌊y * 2 ^ (1074 : ℕ)⌋ else ⌊y * 2 ^ (1074 : ℕ)⌋ + 1)
    else round (y * 2 ^ (1074 : ℕ))) : ℚ) / 2 ^ (1074 : ℕ)

/-- Halving on the grid, written on the grid indices: exact when the
index is even, otherwise the IEEE round-to-nearest-even step. -/
def halveN (n : ℕ) : ℕ :=
  if n % 2 = 0 then n / 2
  else if (n / 2) % 2 = 0 then n / 2 else n / 2 + 1

/-- The double product 2.0 * e of the search (exact: the 1e7 guard keeps
every reachable value far below the overflow threshold). -/
def Dbl.twice : Dbl → Dbl
  | .fin q => .fin (2 * q)
  | .pinf => .pinf
  | .ninf => .ninf
  | .nan => .nan

/-- The double product 0.5 * e of the search, including the subnormal
rounding and the underflow to zero. -/
def Dbl.halve : Dbl → Dbl
  | .fin q => .fin (gridRound (q / 2))
  | .pinf => .pinf
  | .ninf => .ninf
  | .nan => .nan

/-- The state of base_hmc that the step-size machinery reads and writes:
the phase-space point z_ (of abstract point type P), nom_epsilon_,
epsilon_ and epsilon_jitter_. -/
structure BaseHmc (P : Type) where
  z : P
  nom_epsilon : Dbl
  epsilon : Dbl
  epsilon_jitter : Dbl
deriving DecidableEq

/-- The collaborators consumed by base_hmc through their contracts: the
Hamiltonian operations sample_p, init and H, and the integrator
operation evolve.  The random number generator rand_int_ is threaded as
an explicit state of type R; loggers are not modelled. -/
structure Collabs (P R : Type) where
  sample_p : P → R → P × R
  ham_init : P → P
  H : P → Dbl
  evolve : P → Dbl → P

/-- The exit paths of init_stepsize: the early return for extreme step
sizes, the accepting break followed by the restore of the point, the two
thrown runtime errors (improper posterior for the ascent past 1e7,
underflow for the descent to 0), and exhaustion of the modelling fuel.
Each constructor carries the sampler and generator state at that exit;
accepted also records the delta_H of the accepting probe. -/
inductive SResult (P R : Type) where
  | skipped (s : BaseHmc P) (r : R)
  | accepted (s : BaseHmc P) (r : R) (lastDH : Dbl)
  | improper (s : BaseHmc P) (r : R)
  | underflow (s : BaseHmc P) (r : R)
  | fuelOut (s : BaseHmc P) (r : R)
deriving DecidableEq

variable {P R : Type}

/-- One probe of the search (lines 89-102 and 109-121 of base_hmc.hpp):
resample the momentum, run init, take H0, evolve one step of the given
size, take h, coerce a NaN h to plus infinity, and return
(H0 - h, evolved point, new generator state).  Note that H0 itself is
not coerced: the code comments that it is finite for a randomly
initialized point. -/
def probe (c : Collabs P R) (z0 : P) (r : R) (eps : Dbl) : Dbl × P × R :=
  (Dbl.sub (c.H (c.ham_init (c.sample_p z0 r).1))
    (if (c.H (c.evolve (c.ham_init (c.sample_p z0 r).1) eps)).isNaN then Dbl.pinf
     else c.H (c.evolve (c.ham_init (c.sample_p z0 r).1) eps)),
   c.evolve (c.ham_init (c.sample_p z0 r).1) eps,
   (c.sample_p z0 r).2)

/-- The scaling of line 128: times 2.0 in direction 1, times 0.5
otherwise. -/
def scaled (direction : ℤ) (e : Dbl) : Dbl :=
  if direction = 1 then e.twice else e.halve

/-- The while loop of init_stepsize (lines 106-140), with explicit fuel.
Each iteration restores the point to z_init, probes at the current
nominal step size, breaks (accepting, with the point restored by line
142) when delta_H falls on the stopping side for the fixed direction,
otherwise scales the nominal step size and throws if it left (0, 1e7]. -/
def stepsize_loop (c : Collabs P R) (log08 : ℚ) (z_init : P) (direction : ℤ) :
    ℕ → BaseHmc P → R → SResult P R
  | 0, s, r => .fuelOut s r
  | fuel + 1, s, r =>
    if direction = 1 ∧ (probe c z_init r s.nom_epsilon).1.gtQ log08 = false then
      .accepted { s with z := z_init } (probe c z_init r s.nom_epsilon).2.2
        (probe c z_init r s.nom_epsilon).1
    else if direction = -1 ∧ (probe c z_init r s.nom_epsilon).1.ltQ log08 = false then
      .accepted { s with z := z_init } (probe c z_init r s.nom_epsilon).2.2
        (probe c z_init r s.nom_epsilon).1
    else if (scaled direction s.nom_epsilon).gtQ stepsizeMax then
      .improper { s with z := (probe c z_init r s.nom_epsilon).2.1, nom_epsilon := scaled direction s.nom_epsilon }
        (probe c z_init r s.nom_epsilon).2.2
    else if (scaled direction s.nom_epsilon).eqQ 0 then
      .underflow { s with z := (probe c z_init r s.nom_epsilon).2.1, nom_epsilon := scaled direction s.nom_epsilon }
        (probe c z_init r s.nom_epsilon).2.2
    else
      stepsize_loop c log08 z_init direction fuel
        { s with z := (probe c z_init r s.nom_epsilon).2.1, nom_epsilon := scaled direction s.nom_epsilon }
        (probe c z_init r s.nom_epsilon).2.2

/-- init_stepsize (lines 82-143): save z_init, return at once if the
nominal step size is 0 or above 1e7, otherwise run a first probe, fix
the search direction from its delta_H, and enter the loop.  log08 is the
double value of std::log(0.8). -/
def init_stepsize (c : Collabs P R) (log08 : ℚ) (fuel : ℕ) (s : BaseHmc P) (r : R) :
    SResult P R :=
  if s.nom_epsilon.eqQ 0 || s.nom_epsilon.gtQ stepsizeMax then .skipped s r
  else
    stepsize_loop c log08 s.z
      (if (probe c s.z r s.nom_epsilon).1.gtQ log08 then 1 else -1) fuel
      { s with z := (probe c s.z r s.nom_epsilon).2.1 }
      (probe c s.z r s.nom_epsilon).2.2

/-- sample_stepsize (lines 165-170): epsilon_ = nom_epsilon_, then, when
epsilon_jitter_ converts to true, one fresh uniform draw u and
epsilon_ *= 1.0 + epsilon_jitter_ * (2.0 * u - 1.0).  The uniform source
is the function unif on the generator state. -/
def sample_stepsize (unif : R → ℚ × R) (s : BaseHmc P) (r : R) : BaseHmc P × R :=
  if s.epsilon_jitter.truthy then
    ({ s with epsilon := (s.nom_epsilon).mul ((Dbl.fin 1).add (s.epsilon_jitter.mul (Dbl.fin (2 * (unif r).1 - 1)))) },
     (unif r).2)
  else ({ s with epsilon := s.nom_epsilon }, r)

/-- set_nominal_stepsize (lines 148-152): update nom_epsilon_ when the
argument is positive, then call the derived hook update_L_
unconditionally; the hook is the parameter updL. -/
def set_nominal_stepsize (updL : BaseHmc P → BaseHmc P) (s : BaseHmc P) (e : Dbl) :
    BaseHmc P :=
  updL (if e.gtQ 0 then { s with nom_epsilon := e } else s)

/-- set_stepsize_jitter (lines 158-161): store the argument only when
0 < j and j < 1, otherwise do nothing. -/
def set_stepsize_jitter (s : BaseHmc P) (j : Dbl) : BaseHmc P :=
  if j.gtQ 0 && j.ltQ 1 then { s with epsilon_jitter := j } else s

/-- The io writer (src/stan/io/writer.hpp): the two internal sequences
and the constraint tolerance. -/
structure Writer where
  data_r : List ℚ
  data_i : List ℤ
  tolerance : ℚ
deriving DecidableEq

/-- The writer constructor (lines 51-55): copy the two supplied vectors
into the members, set CONSTRAINT_TOLERANCE to 1e-8, then clear both
copies. -/
def mkWriter (dataR : List ℚ) (dataI : List ℤ) : Writer :=
  { ({ data_r := dataR, data_i := dataI, tolerance := 1 / 10 ^ 8 } : Writer) with data_r := [], data_i := [] }

/-- writer::integer (line 80): push the value onto the internal integer
sequence. -/
def Writer.integer (w : Writer) (n : ℤ) : Writer :=
  { w with data_i := w.data_i ++ [n] }

/-- writer::scalar_unconstrain (line 89): push the value onto the
internal real sequence. -/
def Writer.scalar_unconstrain (w : Writer) (y : ℚ) : Writer :=
  { w with data_r := w.data_r ++ [y] }

/-!
Concrete collaborator stubs and starting states, used to instantiate the
theorems below at checkable inputs.  Points are natural numbers, the
generator state is trivial, evolve advances the point by one, and the
energy functions are chosen so that every probe lands on a prescribed
side of the threshold, which is instantiated as -1/4.
-/

/-- Stub whose every probe has delta_H = 1, above any negative
threshold: H decreases by one along each evolve step. -/
def cGT : Collabs ℕ Unit :=
  { sample_p := fun z r => (z, r), ham_init := fun z => z,
    H := fun z => .fin (-(z : ℚ)), evolve := fun z _ => z + 1 }

/-- Stub whose every probe has delta_H = -1, below the threshold -1/4:
H increases by one along each evolve step. -/
def cLT : Collabs ℕ Unit :=
  { sample_p := fun z r => (z, r), ham_init := fun z => z,
    H := fun z => .fin (z : ℚ), evolve := fun z _ => z + 1 }

/-- Stub whose every probe has delta_H = -1/4, exactly the threshold
used below, so the very first loop iteration accepts in direction -1. -/
def cEq : Collabs ℕ Unit :=
  { sample_p := fun z r => (z, r), ham_init := fun z => z,
    H := fun z => .fin ((z : ℚ) / 4), evolve := fun z _ => z + 1 }

/-- Stub whose H is NaN exactly at the starting point 0, so the
pre-step energy H0 of every probe from 0 is NaN while the post-step
energy is finite. -/
def cH0NaN : Collabs ℕ Unit :=
  { sample_p := fun z r => (z, r), ham_init := fun z => z,
    H := fun z => if z = 0 then .nan else .fin 0, evolve := fun z _ => z + 1 }

/-- Stub whose H is NaN exactly at the evolved point 1, so the post-step
energy of a probe from 0 is NaN while H0 is finite. -/
def cHNaN : Collabs ℕ Unit :=
  { sample_p := fun z r => (z, r), ham_init := fun z => z,
    H := fun z => if z = 1 then .nan else .fin 0, evolve := fun z _ => z + 1 }

/-- Starting state with the default nominal step size 0.1 of base_hmc. -/
def s01 : BaseHmc ℕ :=
  { z := 0, nom_epsilon := .fin (1 / 10), epsilon := .fin (1 / 10), epsilon_jitter := .fin 0 }

/-- Starting state whose nominal step size is exactly the threshold 1e7. -/
def sMax : BaseHmc ℕ := { s01 with nom_epsilon := .fin (10 ^ 7) }

/-- Starting state whose nominal step size is the smallest positive
double. -/
def sTiny : BaseHmc ℕ := { s01 with nom_epsilon := .fin (grid 1) }

/-- Starting state with nominal step size zero. -/
def sZero : BaseHmc ℕ := { s01 with nom_epsilon := .fin 0 }

/-- Starting state with jitter fraction one half. -/
def sJit : BaseHmc ℕ := { s01 with epsilon_jitter := .fin (1 / 2) }

/-- Uniform source that always draws one half. -/
def unifHalf : Unit → ℚ × Unit := fun r => (1 / 2, r)

/-!
Arithmetic of the step-size grid: halving a double whose grid index is n
lands on the grid index halveN n, halving strictly decreases a positive
index, and the comparisons with 0 and 1e7 become comparisons of grid
indices.
-/

theorem halveN_lt (n : ℕ) (h : 1 ≤ n) : halveN n < n := by
  unfold halveN; split_ifs <;> omega

theorem halveN_le (n : ℕ) : halveN n ≤ n := by
  unfold halveN; split_ifs <;> omega

theorem gridRound_grid_half (n : ℕ) : gridRound (grid n / 2) = grid (halveN n) := by
  have hm : grid n / 2 * (2 : ℚ) ^ (1074 : ℕ) = (n : ℚ) / 2 := by
    unfold grid; field_simp; ring
  unfold gridRound
  rw [hm]
  rcases Nat.even_or_odd n with ⟨k, hk⟩ | ⟨k, hk⟩
  · subst hk
    have h1 : ((k + k : ℕ) : ℚ) / 2 = ((k : ℕ) : ℚ) := by push_cast; ring
    have h2 : halveN (k + k) = k := by unfold halveN; split_ifs <;> omega
    rw [h1, h2, Int.fract_natCast, if_neg (by norm_num), round_natCast]
    unfold grid
    norm_num
  · subst hk
    have h1 : ((2 * k + 1 : ℕ) : ℚ) / 2 = ((k : ℤ) : ℚ) + (1 / 2 : ℚ) := by push_cast; ring
    have hhalf : Int.fract ((1 : ℚ) / 2) = 1 / 2 := Int.fract_eq_self.mpr (by norm_num)
    have hfl0 : ⌊(1 : ℚ) / 2⌋ = 0 := by
      rw [Int.floor_eq_zero_iff]; norm_num [Set.mem_Ico]
    have h2 : halveN (2 * k + 1) = if k % 2 = 0 then k else k + 1 := by
      unfold halveN; split_ifs <;> omega
    rw [h1, Int.fract_int_add, hhalf, if_pos rfl, Int.floor_int_add, hfl0, h2]
    by_cases hk2 : k % 2 = 0
    · rw [if_pos (show 2 ∣ (k : ℤ) + 0 by omega), if_pos hk2]
      unfold grid; push_cast; ring
    · rw [if_neg (show ¬2 ∣ (k : ℤ) + 0 by omega), if_neg hk2]
      unfold grid; push_cast; ring

theorem halve_grid (n : ℕ) : (Dbl.fin (grid n)).halve = .fin (grid (halveN n)) := by
  rw [show (Dbl.fin (grid n)).halve = .fin (gridRound (grid n / 2)) from rfl, gridRound_grid_half]

theorem twice_grid (n : ℕ) : (Dbl.fin (grid n)).twice = .fin (grid (2 * n)) := by
  have h : 2 * grid n = grid (2 * n) := by unfold grid; push_cast; ring
  rw [show (Dbl.fin (grid n)).twice = .fin (2 * grid n) from rfl, h]

theorem grid_gtQ_max (n : ℕ) : (Dbl.fin (grid n)).gtQ stepsizeMax = decide (gridMax < n) := by
  have key : stepsizeMax < grid n ↔ gridMax < n := by
    unfold stepsizeMax grid gridMax
    rw [lt_div_iff₀ (by positivity : (0 : ℚ) < 2 ^ (1074 : ℕ))]
    norm_cast
  rw [show (Dbl.fin (grid n)).gtQ stepsizeMax = decide (stepsizeMax < grid n) from rfl,
    decide_eq_decide.mpr key]

theorem grid_eqQ_zero (n : ℕ) : (Dbl.fin (grid n)).eqQ 0 = decide (n = 0) := by
  have key : grid n = 0 ↔ n = 0 := by
    unfold grid
    rw [div_eq_zero_iff]
    constructor
    · rintro (h | h)
      · exact_mod_cast h
      · exact absurd h (by positivity)
    · intro h
      exact Or.inl (by exact_mod_cast h)
  rw [show (Dbl.fin (grid n)).eqQ 0 = decide (grid n = 0) from rfl, decide_eq_decide.mpr key]

/-!
Comparison facts about the double model and the shape of the probe
value: when the pre-step energy H0 is finite (the contract stated by the
code comment at line 92), the coercion of a NaN post-step energy makes
delta_H a non-NaN value.
-/

theorem probe_dH_ne_nan {P R : Type} (c : Collabs P R)
    (hH0 : ∀ z r0, ∃ q, c.H (c.ham_init (c.sample_p z r0).1) = .fin q)
    (z : P) (r : R) (e : Dbl) : (probe c z r e).1 ≠ .nan := by
  obtain ⟨q, hq⟩ := hH0 z r
  unfold probe
  simp only [hq]
  rcases hh : c.H (c.evolve (c.ham_init (c.sample_p z r).1) e) with _ | _ | _ | b <;>
    simp [Dbl.isNaN, Dbl.sub]

theorem gtQ_false_leQ (d : Dbl) (t : ℚ) (h : d.gtQ t = false) (h1 : d ≠ .nan) :
    d.leQ t = true := by
  cases d with
  | nan => exact absurd rfl h1
  | pinf => simp [Dbl.gtQ] at h
  | ninf => simp [Dbl.leQ]
  | fin x =>
    simp only [Dbl.gtQ, decide_eq_false_iff_not, not_lt] at h
    simpa [Dbl.leQ] using h

theorem ltQ_false_geQ (d : Dbl) (t : ℚ) (h : d.ltQ t = false) (h1 : d ≠ .nan) :
    d.geQ t = true := by
  cases d with
  | nan => exact absurd rfl h1
  | pinf => simp [Dbl.geQ]
  | ninf => simp [Dbl.ltQ] at h
  | fin x =>
    simp only [Dbl.ltQ, decide_eq_false_iff_not, not_lt] at h
    simpa [Dbl.geQ] using h

theorem ltQ_true_gtQ_false (d : Dbl) (t : ℚ) (h : d.ltQ t = true) : d.gtQ t = false := by
  cases d with
  | nan => simp [Dbl.ltQ] at h
  | pinf => simp [Dbl.ltQ] at h
  | ninf => simp [Dbl.gtQ]
  | fin x =>
    simp only [Dbl.ltQ, decide_eq_true_eq] at h
    simp only [Dbl.gtQ, decide_eq_false_iff_not, not_lt]
    linarith

/-!
Unfolding equations and structural lemmas for the search loop.
-/

theorem loop_zero {P R : Type} (c : Collabs P R) (t : ℚ) (zi : P) (d : ℤ)
    (s : BaseHmc P) (r : R) : stepsize_loop c t zi d 0 s r = .fuelOut s r := rfl

theorem loop_succ {P R : Type} (c : Collabs P R) (t : ℚ) (zi : P) (d : ℤ)
    (fuel : ℕ) (s : BaseHmc P) (r : R) :
    stepsize_loop c t zi d (fuel + 1) s r =
      if d = 1 ∧ (probe c zi r s.nom_epsilon).1.gtQ t = false then
        .accepted { s with z := zi } (probe c zi r s.nom_epsilon).2.2 (probe c zi r s.nom_epsilon).1
      else if d = -1 ∧ (probe c zi r s.nom_epsilon).1.ltQ t = false then
        .accepted { s with z := zi } (probe c zi r s.nom_epsilon).2.2 (probe c zi r s.nom_epsilon).1
      else if (scaled d s.nom_epsilon).gtQ stepsizeMax then
        .improper { s with z := (probe c zi r s.nom_epsilon).2.1, nom_epsilon := scaled d s.nom_epsilon } (probe c zi r s.nom_epsilon).2.2
      else if (scaled d s.nom_epsilon).eqQ 0 then
        .underflow { s with z := (probe c zi r s.nom_epsilon).2.1, nom_epsilon := scaled d s.nom_epsilon } (probe c zi r s.nom_epsilon).2.2
      else
        stepsize_loop c t zi d fuel
          { s with z := (probe c zi r s.nom_epsilon).2.1, nom_epsilon := scaled d s.nom_epsilon }
          (probe c zi r s.nom_epsilon).2.2 := rfl

theorem loop_ne_skipped {P R : Type} (c : Collabs P R) (t : ℚ) (zi : P) (d : ℤ) :
    ∀ (fuel : ℕ) (s : BaseHmc P) (r : R) (s1 : BaseHmc P) (r1 : R),
      stepsize_loop c t zi d fuel s r ≠ .skipped s1 r1 := by
  intro fuel
  induction fuel with
  | zero => intro s r s1 r1 h; rw [loop_zero] at h; simp at h
  | succ fuel ih =>
    intro s r s1 r1 h
    rw [loop_succ] at h
    split_ifs at h with h1 h2 h3 h4
    exact ih _ _ _ _ h

theorem loop_accepted_shape {P R : Type} (c : Collabs P R) (t : ℚ) (zi : P) (d : ℤ) :
    ∀ (fuel : ℕ) (s : BaseHmc P) (r : R) (s1 : BaseHmc P) (r1 : R) (dh : Dbl),
      stepsize_loop c t zi d fuel s r = .accepted s1 r1 dh →
      s1.z = zi ∧ (d = 1 → dh.gtQ t = false) ∧ (d = -1 → dh.ltQ t = false) ∧
      ∃ (r0 : R) (e : Dbl), dh = (probe c zi r0 e).1 := by
  intro fuel
  induction fuel with
  | zero => intro s r s1 r1 dh h; rw [loop_zero] at h; simp at h
  | succ fuel ih =>
    intro s r s1 r1 dh h
    rw [loop_succ] at h
    split_ifs at h with h1 h2 h3 h4
    · obtain ⟨hd, hgt⟩ := h1
      injection h with hs hr hdh
      subst hs; subst hdh
      exact ⟨rfl, fun _ => hgt, fun hneg => absurd hneg (by omega), r, s.nom_epsilon, rfl⟩
    · obtain ⟨hd, hlt⟩ := h2
      injection h with hs hr hdh
      subst hs; subst hdh
      exact ⟨rfl, fun hpos => absurd hpos (by omega), fun _ => hlt, r, s.nom_epsilon, rfl⟩
    · exact ih _ _ _ _ _ h

theorem loop_improper_gtQ {P R : Type} (c : Collabs P R) (t : ℚ) (zi : P) (d : ℤ) :
    ∀ (fuel : ℕ) (s : BaseHmc P) (r : R) (s1 : BaseHmc P) (r1 : R),
      stepsize_loop c t zi d fuel s r = .improper s1 r1 →
      s1.nom_epsilon.gtQ stepsizeMax = true := by
  intro fuel
  induction fuel with
  | zero => intro s r s1 r1 h; rw [loop_zero] at h; simp at h
  | succ fuel ih =>
    intro s r s1 r1 h
    rw [loop_succ] at h
    split_ifs at h with h1 h2 h3 h4
    · injection h with hs hr
      subst hs
      exact h3
    · exact ih _ _ _ _ h

theorem loop_underflow_eqQ {P R : Type} (c : Collabs P R) (t : ℚ) (zi : P) (d : ℤ) :
    ∀ (fuel : ℕ) (s : BaseHmc P) (r : R) (s1 : BaseHmc P) (r1 : R),
      stepsize_loop c t zi d fuel s r = .underflow s1 r1 →
      s1.nom_epsilon.eqQ 0 = true := by
  intro fuel
  induction fuel with
  | zero => intro s r s1 r1 h; rw [loop_zero] at h; simp at h
  | succ fuel ih =>
    intro s r s1 r1 h
    rw [loop_succ] at h
    split_ifs at h with h1 h2 h3 h4
    · injection h with hs hr
      subst hs
      exact h4
    · exact ih _ _ _ _ h

theorem loop_fuelOut_succ {P R : Type} (c : Collabs P R) (t : ℚ) (zi : P) (d : ℤ) :
    ∀ (fuel : ℕ) (s : BaseHmc P) (r : R) (s1 : BaseHmc P) (r1 : R) (s2 : BaseHmc P) (r2 : R),
      stepsize_loop c t zi d fuel s r = .fuelOut s1 r1 →
      stepsize_loop c t zi d (fuel + 1) s r = .fuelOut s2 r2 →
      s2.nom_epsilon = scaled d s1.nom_epsilon ∧
      (scaled d s1.nom_epsilon).gtQ stepsizeMax = false ∧
      (scaled d s1.nom_epsilon).eqQ 0 = false := by
  intro fuel
  induction fuel with
  | zero =>
    intro s r s1 r1 s2 r2 h h'
    rw [loop_zero] at h
    injection h with hs hr
    subst hs; subst hr
    rw [loop_succ] at h'
    split_ifs at h' with h1 h2 h3 h4
    rw [loop_zero] at h'
    injection h' with hs2 hr2
    subst hs2
    refine ⟨rfl, ?_, ?_⟩
    · simpa using h3
    · simpa using h4
  | succ fuel ih =>
    intro s r s1 r1 s2 r2 h h'
    rw [loop_succ] at h h'
    split_ifs at h h' with h1 h2 h3 h4
    exact ih _ _ _ _ _ _ h h'

/-!
Termination of the search loop.  In direction 1 the grid index doubles
every continuing iteration and is capped by gridMax, so the loop cannot
continue more than gridMax times; in direction -1 the index strictly
decreases, so the loop cannot continue more than n times.  The two
forcing lemmas show that when every probe lands strictly on the scaling
side, the corresponding fatal error is reached, with the explicit fuel
bound for the doubling direction.
-/

theorem loop_dir1_not_fuelOut {P R : Type} (c : Collabs P R) (t : ℚ) (zi : P) :
    ∀ (fuel n : ℕ) (s : BaseHmc P) (r : R), s.nom_epsilon = .fin (grid n) →
      1 ≤ n → n ≤ gridMax → gridMax + 2 ≤ fuel + n →
      ∀ (s1 : BaseHmc P) (r1 : R), stepsize_loop c t zi 1 fuel s r ≠ .fuelOut s1 r1 := by
  intro fuel
  induction fuel with
  | zero => intro n s r hn h1 h2 h3 s1 r1 h; omega
  | succ fuel ih =>
    intro n s r hn h1 h2 h3 s1 r1 h
    rw [loop_succ] at h
    have hsc : scaled 1 s.nom_epsilon = .fin (grid (2 * n)) := by
      rw [hn]; unfold scaled; rw [if_pos rfl, twice_grid]
    split_ifs at h with hb1 hb2 hb3 hb4
    rw [hsc, grid_gtQ_max] at hb3
    simp only [decide_eq_true_eq] at hb3
    exact ih (2 * n) _ _ hsc (by omega) (by omega) (by omega) s1 r1 h

theorem loop_dirm1_not_fuelOut {P R : Type} (c : Collabs P R) (t : ℚ) (zi : P) :
    ∀ (fuel n : ℕ) (s : BaseHmc P) (r : R), s.nom_epsilon = .fin (grid n) →
      1 ≤ n → n + 1 ≤ fuel →
      ∀ (s1 : BaseHmc P) (r1 : R), stepsize_loop c t zi (-1) fuel s r ≠ .fuelOut s1 r1 := by
  intro fuel
  induction fuel with
  | zero => intro n s r hn h1 h3 s1 r1 h; omega
  | succ fuel ih =>
    intro n s r hn h1 h3 s1 r1 h
    rw [loop_succ] at h
    have hsc : scaled (-1) s.nom_epsilon = .fin (grid (halveN n)) := by
      rw [hn]; unfold scaled; rw [if_neg (by omega), halve_grid]
    have hdec := halveN_lt n h1
    rw [if_neg (show ¬((-1 : ℤ) = 1 ∧ (probe c zi r s.nom_epsilon).1.gtQ t = false) by
      rintro ⟨hx, -⟩; exact absurd hx (by decide))] at h
    split_ifs at h with hb2 hb3 hb4
    rw [hsc, grid_eqQ_zero] at hb4
    simp only [decide_eq_true_eq] at hb4
    exact ih (halveN n) _ _ hsc (by omega) (by omega) s1 r1 h

theorem loop_dir1_improper {P R : Type} (c : Collabs P R) (t : ℚ) (zi : P)
    (hGT : ∀ (z : P) (r0 : R) (e : Dbl), (probe c z r0 e).1.gtQ t = true) :
    ∀ (fuel n : ℕ) (s : BaseHmc P) (r : R), s.nom_epsilon = .fin (grid n) →
      n ≤ gridMax → gridMax < 2 ^ fuel * n →
      ∃ (s1 : BaseHmc P) (r1 : R), stepsize_loop c t zi 1 fuel s r = .improper s1 r1 := by
  intro fuel
  induction fuel with
  | zero =>
    intro n s r hn h2 h3
    simp only [pow_zero, one_mul] at h3
    omega
  | succ fuel ih =>
    intro n s r hn h2 h3
    have hn1 : 1 ≤ n := by
      rcases Nat.eq_zero_or_pos n with h0 | h0
      · subst h0; simp at h3
      · exact h0
    rw [loop_succ]
    have hsc : scaled 1 s.nom_epsilon = .fin (grid (2 * n)) := by
      rw [hn]; unfold scaled; rw [if_pos rfl, twice_grid]
    rw [if_neg (by rintro ⟨-, hfalse⟩; rw [hGT zi r s.nom_epsilon] at hfalse; simp at hfalse),
      if_neg (by rintro ⟨hx, -⟩; exact absurd hx (by decide))]
    by_cases hcase : gridMax < 2 * n
    · rw [if_pos (by rw [hsc, grid_gtQ_max]; exact decide_eq_true hcase)]
      exact ⟨_, _, rfl⟩
    · rw [if_neg (by rw [hsc, grid_gtQ_max]; simp; omega),
        if_neg (by rw [hsc, grid_eqQ_zero]; simp; omega)]
      have hx : 2 ^ (fuel + 1) * n = 2 ^ fuel * (2 * n) := by ring
      exact ih (2 * n) _ _ hsc (by omega) (by rw [← hx]; exact h3)

theorem loop_dirm1_underflow {P R : Type} (c : Collabs P R) (t : ℚ) (zi : P)
    (hLT : ∀ (z : P) (r0 : R) (e : Dbl), (probe c z r0 e).1.ltQ t = true) :
    ∀ (fuel n : ℕ) (s : BaseHmc P) (r : R), s.nom_epsilon = .fin (grid n) →
      1 ≤ n → n ≤ gridMax → n + 1 ≤ fuel →
      ∃ (s1 : BaseHmc P) (r1 : R), stepsize_loop c t zi (-1) fuel s r = .underflow s1 r1 := by
  intro fuel
  induction fuel with
  | zero => intro n s r hn h1 h2 h3; omega
  | succ fuel ih =>
    intro n s r hn h1 h2 h3
    rw [loop_succ]
    have hsc : scaled (-1) s.nom_epsilon = .fin (grid (halveN n)) := by
      rw [hn]; unfold scaled; rw [if_neg (by omega), halve_grid]
    have hdec := halveN_lt n h1
    rw [if_neg (by rintro ⟨hx, -⟩; exact absurd hx (by decide)),
      if_neg (by rintro ⟨-, hfalse⟩; rw [hLT zi r s.nom_epsilon] at hfalse; simp at hfalse),
      if_neg (by rw [hsc, grid_gtQ_max]; simp; omega)]
    by_cases hcase : halveN n = 0
    · rw [if_pos (by rw [hsc, grid_eqQ_zero]; exact decide_eq_true hcase)]
      exact ⟨_, _, rfl⟩
    · rw [if_neg (by rw [hsc, grid_eqQ_zero]; simp; omega)]
      exact ih (halveN n) _ _ hsc (by omega) (by omega) (by omega)

/-!
The claims.
-/

/-- C1, amended.  On the skip exit and on the accepting exit of
init_stepsize the phase-space point of the final state is bit-for-bit
the saved entry point z_init.  The original claim also asserted this for
the two fatal exits; that part is refuted by claim1_fatal_mutates_cex:
the code throws from inside the loop, after sample_p and evolve have
mutated the point and before the restoring assignment of line 142. -/
theorem claim1_point_restored_amended {P R : Type} (c : Collabs P R) (log08 : ℚ)
    (fuel : ℕ) (s : BaseHmc P) (r : R) :
    (∀ (s1 : BaseHmc P) (r1 : R),
      init_stepsize c log08 fuel s r = .skipped s1 r1 → s1.z = s.z) ∧
    (∀ (s1 : BaseHmc P) (r1 : R) (dh : Dbl),
      init_stepsize c log08 fuel s r = .accepted s1 r1 dh → s1.z = s.z) := by
  constructor
  · intro s1 r1 h
    unfold init_stepsize at h
    by_cases hg : (s.nom_epsilon.eqQ 0 || s.nom_epsilon.gtQ stepsizeMax) = true
    · rw [if_pos hg] at h
      injection h with hs hr
      subst hs
      rfl
    · rw [if_neg hg] at h
      exact absurd h (loop_ne_skipped c log08 s.z _ fuel _ _ s1 r1)
  · intro s1 r1 dh h
    unfold init_stepsize at h
    by_cases hg : (s.nom_epsilon.eqQ 0 || s.nom_epsilon.gtQ stepsizeMax) = true
    · rw [if_pos hg] at h
      simp at h
    · rw [if_neg hg] at h
      exact (loop_accepted_shape c log08 s.z _ fuel _ _ s1 r1 dh h).1

/-- Counterexample to C1 as stated: a run of init_stepsize that
terminates by the posterior-is-improper fatal error leaves the
phase-space point at 1, mutated by the probe, while the entry point of
sMax is 0 — the fatal exits do not restore z_init. -/
theorem claim1_fatal_mutates_cex :
    init_stepsize cGT (-1 / 4) 1 sMax () =
      .improper { z := 1, nom_epsilon := .fin 20000000, epsilon := .fin (1 / 10), epsilon_jitter := .fin 0 } () ∧
    (1 : ℕ) ≠ sMax.z := by
  refine ⟨?_, by decide⟩
  norm_num [init_stepsize, stepsize_loop, probe, scaled, cGT, sMax, s01,
    Dbl.eqQ, Dbl.gtQ, Dbl.ltQ, Dbl.sub, Dbl.isNaN, Dbl.twice, stepsizeMax]

/-- Witness for C1 at a concrete accepting run: the stub cEq accepts at
once and the returned state is exactly the starting state s01. -/
theorem claim1_witness :
    init_stepsize cEq (-1 / 4) 3 s01 () = .accepted s01 () (.fin (-1 / 4)) ∧ s01.z = s01.z := by
  have h : init_stepsize cEq (-1 / 4) 3 s01 () = .accepted s01 () (.fin (-1 / 4)) := by
    norm_num [init_stepsize, stepsize_loop, probe, scaled, cEq, s01,
      Dbl.eqQ, Dbl.gtQ, Dbl.ltQ, Dbl.sub, Dbl.isNaN, Dbl.twice, stepsizeMax]
  exact ⟨h, (claim1_point_restored_amended cEq (-1 / 4) 3 s01 ()).2 s01 () (.fin (-1 / 4)) h⟩

/-- C5, amended.  In every probe of init_stepsize the post-step energy h
is coerced to plus infinity when it is NaN, before the delta_H
subtraction and comparison, and a finite pre-step energy H0 therefore
makes delta_H non-NaN.  The original claim also asserted the coercion
for the pre-step energy H0; that part is refuted by claim5_h0_nan_cex:
H0 is used uncoerced (the code comments that it is finite for a randomly
initialized point), so a NaN H0 reaches the comparison. -/
theorem claim5_nan_coercion_amended {P R : Type} (c : Collabs P R) (z : P) (r : R) (e : Dbl) :
    (c.H (c.evolve (c.ham_init (c.sample_p z r).1) e) = .nan →
      (probe c z r e).1 = (c.H (c.ham_init (c.sample_p z r).1)).sub .pinf) ∧
    (∀ q : ℚ, c.H (c.ham_init (c.sample_p z r).1) = .fin q → (probe c z r e).1 ≠ .nan) := by
  constructor
  · intro h
    unfold probe
    rw [h]
    simp [Dbl.isNaN]
  · intro q hq hcontra
    unfold probe at hcontra
    rw [hq] at hcontra
    rcases hh : c.H (c.evolve (c.ham_init (c.sample_p z r).1) e) with _ | _ | _ | b <;>
      rw [hh] at hcontra <;> simp [Dbl.isNaN, Dbl.sub] at hcontra

/-- Counterexample to C5 as stated: with a Hamiltonian stub whose H is
NaN at the starting point, the pre-step energy H0 is NaN, delta_H is NaN
and that NaN value is exactly what the loop compares (and accepts on,
since every IEEE comparison with NaN is false): the accepting probe
records delta_H = NaN. -/
theorem claim5_h0_nan_cex :
    (probe cH0NaN 0 () (.fin (1 / 10))).1 = .nan ∧
    init_stepsize cH0NaN (-1 / 4) 5 s01 () = .accepted s01 () .nan := by
  constructor
  · norm_num [probe, cH0NaN, Dbl.sub, Dbl.isNaN]
  · norm_num [init_stepsize, stepsize_loop, probe, scaled, cH0NaN, s01,
      Dbl.eqQ, Dbl.gtQ, Dbl.ltQ, Dbl.sub, Dbl.isNaN, stepsizeMax]

/-- Witness for C5 at a concrete input: with H NaN exactly at the
evolved point, the probe coerces the post-step energy to plus
infinity. -/
theorem claim5_witness :
    (probe cHNaN 0 () (.fin (1 / 10))).1 =
      (cHNaN.H (cHNaN.ham_init (cHNaN.sample_p 0 ()).1)).sub .pinf :=
  (claim5_nan_coercion_amended cHNaN 0 () (.fin (1 / 10))).1 (by norm_num [cHNaN])

/-- C7: if at entry the nominal step size is exactly 0 or strictly above
1e7, init_stepsize returns immediately through the skip exit, which is
not an error, performing no search and leaving the whole sampler state —
nominal step size, current step size and phase-space point — unchanged. -/
theorem claim7_skip_extreme {P R : Type} (c : Collabs P R) (log08 : ℚ) (fuel : ℕ)
    (s : BaseHmc P) (r : R)
    (h : s.nom_epsilon.eqQ 0 = true ∨ s.nom_epsilon.gtQ stepsizeMax = true) :
    init_stepsize c log08 fuel s r = .skipped s r := by
  unfold init_stepsize
  rcases h with h | h <;> rw [if_pos (by rw [h]; simp)]

/-- Witness for C7 at a concrete input: a zero nominal step size skips. -/
theorem claim7_witness : init_stepsize cGT (-1 / 4) 5 sZero () = .skipped sZero () :=
  claim7_skip_extreme cGT (-1 / 4) 5 sZero () (Or.inl (by decide))

/-- C8: set_stepsize_jitter stores the argument when it is a value
strictly between 0 and 1, and for every other argument — 0, negative
values, values at least 1, infinities and NaN — it is a silent no-op
that raises no error and leaves the sampler state unchanged. -/
theorem claim8_jitter_setter {P : Type} (s : BaseHmc P) (j : Dbl) :
    (∀ q : ℚ, j = .fin q → 0 < q → q < 1 →
      set_stepsize_jitter s j = { s with epsilon_jitter := .fin q }) ∧
    ((¬∃ q : ℚ, j = .fin q ∧ 0 < q ∧ q < 1) → set_stepsize_jitter s j = s) := by
  constructor
  · intro q hq h0 h1
    subst hq
    unfold set_stepsize_jitter
    rw [if_pos (by simp [Dbl.gtQ, Dbl.ltQ, h0, h1])]
  · intro hno
    have hc : (j.gtQ 0 && j.ltQ 1) = false := by
      rcases j with _ | _ | _ | q
      · simp [Dbl.gtQ]
      · simp [Dbl.ltQ]
      · simp [Dbl.gtQ]
      · simp only [Dbl.gtQ, Dbl.ltQ, Bool.and_eq_false_iff, decide_eq_false_iff_not]
        by_cases h0 : 0 < q
        · by_cases h1 : q < 1
          · exact absurd ⟨q, rfl, h0, h1⟩ hno
          · exact Or.inr h1
        · exact Or.inl h0
    unfold set_stepsize_jitter
    rw [if_neg (by simp [hc])]

/-- Witness for C8 at a concrete input: one half is stored. -/
theorem claim8_witness :
    set_stepsize_jitter s01 (.fin (1 / 2)) = { s01 with epsilon_jitter := .fin (1 / 2) } :=
  (claim8_jitter_setter s01 (.fin (1 / 2))).1 (1 / 2) rfl (by norm_num) (by norm_num)

/-- C9: set_nominal_stepsize stores the argument exactly when the
comparison e > 0 holds — so 0, negative values and NaN (for which the
comparison is false) leave the nominal step size unchanged — and in
every case, accepted or rejected, it invokes the derived update hook
exactly once, on the resulting state. -/
theorem claim9_set_nominal {P : Type} (updL : BaseHmc P → BaseHmc P) (s : BaseHmc P) (e : Dbl) :
    (e.gtQ 0 = true → set_nominal_stepsize updL s e = updL { s with nom_epsilon := e }) ∧
    (e.gtQ 0 = false → set_nominal_stepsize updL s e = updL s) ∧
    Dbl.gtQ .nan 0 = false ∧
    (∀ q : ℚ, q ≤ 0 → (Dbl.fin q).gtQ 0 = false) := by
  refine ⟨?_, ?_, rfl, ?_⟩
  · intro h
    unfold set_nominal_stepsize
    rw [if_pos h]
  · intro h
    unfold set_nominal_stepsize
    rw [if_neg (by simp [h])]
  · intro q hq
    simp only [Dbl.gtQ, decide_eq_false_iff_not, not_lt]
    exact hq

/-- Witness for C9 at a concrete input: a positive argument is stored
and the hook is applied to the updated state. -/
theorem claim9_witness :
    set_nominal_stepsize (fun x => x) s01 (.fin 2) = { s01 with nom_epsilon := .fin 2 } :=
  (claim9_set_nominal (fun x => x) s01 (.fin 2)).1 (by decide)

/-- C10: the writer constructor copies the two supplied vectors and then
clears the copies, so immediately after construction both internal
sequences are empty whatever the inputs held, and each write operation
appends to the internal sequences (the value semantics of the model keep
the callers vectors untouched). -/
theorem claim10_writer_clears (dataR : List ℚ) (dataI : List ℤ) :
    (mkWriter dataR dataI).data_r = [] ∧ (mkWriter dataR dataI).data_i = [] ∧
    (∀ (w : Writer) (n : ℤ),
      (w.integer n).data_i = w.data_i ++ [n] ∧ (w.integer n).data_r = w.data_r) ∧
    (∀ (w : Writer) (y : ℚ),
      (w.scalar_unconstrain y).data_r = w.data_r ++ [y] ∧
      (w.scalar_unconstrain y).data_i = w.data_i) :=
  ⟨rfl, rfl, fun _ _ => ⟨rfl, rfl⟩, fun _ _ => ⟨rfl, rfl⟩⟩

/-- C2: for every starting nominal step size in (0, 1e7] (a double,
written as grid n with 1 <= n <= gridMax) and any collaborators whose
pre-step energy H0 is finite (the contract the code states at line 92),
init_stepsize with sufficient fuel terminates by accepting or by one of
the two fatal errors, and an accepting exit records a final delta_H on
the accepting side of log 0.8 for the direction fixed at the first
probe: at most log 0.8 when the first delta_H was strictly greater
(direction 1), at least log 0.8 otherwise (direction -1). -/
theorem claim2_search_terminates {P R : Type} (c : Collabs P R) (log08 : ℚ)
    (s : BaseHmc P) (r : R) (n : ℕ)
    (hn : s.nom_epsilon = .fin (grid n)) (h1 : 1 ≤ n) (h2 : n ≤ gridMax)
    (hH0 : ∀ (z : P) (r0 : R), ∃ q : ℚ, c.H (c.ham_init (c.sample_p z r0).1) = .fin q) :
    ((∃ s1 r1 dh, init_stepsize c log08 (gridMax + n + 2) s r = .accepted s1 r1 dh) ∨
     (∃ s1 r1, init_stepsize c log08 (gridMax + n + 2) s r = .improper s1 r1) ∨
     (∃ s1 r1, init_stepsize c log08 (gridMax + n + 2) s r = .underflow s1 r1)) ∧
    (∀ (s1 : BaseHmc P) (r1 : R) (dh : Dbl),
      init_stepsize c log08 (gridMax + n + 2) s r = .accepted s1 r1 dh →
      ((probe c s.z r s.nom_epsilon).1.gtQ log08 = true → dh.leQ log08 = true) ∧
      ((probe c s.z r s.nom_epsilon).1.gtQ log08 = false → dh.geQ log08 = true)) := by
  have hgf : (s.nom_epsilon.eqQ 0 || s.nom_epsilon.gtQ stepsizeMax) = false := by
    rw [hn, grid_eqQ_zero, grid_gtQ_max]
    simp only [Bool.or_eq_false_iff, decide_eq_false_iff_not]
    omega
  unfold init_stepsize
  rw [if_neg (by rw [hgf]; simp)]
  by_cases hfir : (probe c s.z r s.nom_epsilon).1.gtQ log08 = true
  · rw [if_pos hfir]
    constructor
    · rcases hres : stepsize_loop c log08 s.z 1 (gridMax + n + 2)
          { s with z := (probe c s.z r s.nom_epsilon).2.1 } (probe c s.z r s.nom_epsilon).2.2 with
        ⟨s1, r1⟩ | ⟨s1, r1, dh⟩ | ⟨s1, r1⟩ | ⟨s1, r1⟩ | ⟨s1, r1⟩
      · exact absurd hres (loop_ne_skipped _ _ _ _ _ _ _ _ _)
      · exact Or.inl ⟨s1, r1, dh, rfl⟩
      · exact Or.inr (Or.inl ⟨s1, r1, rfl⟩)
      · exact Or.inr (Or.inr ⟨s1, r1, rfl⟩)
      · exact absurd hres
          (loop_dir1_not_fuelOut c log08 s.z (gridMax + n + 2) n _ _ hn h1 h2 (by omega) s1 r1)
    · intro s1 r1 dh hacc
      have hsh := loop_accepted_shape c log08 s.z 1 _ _ _ _ _ _ hacc
      obtain ⟨r0, e, hdh⟩ := hsh.2.2.2
      have hne : dh ≠ .nan := by rw [hdh]; exact probe_dH_ne_nan c hH0 _ _ _
      refine ⟨fun _ => gtQ_false_leQ _ _ (hsh.2.1 rfl) hne, fun hcon => ?_⟩
      rw [hfir] at hcon
      simp at hcon
  · rw [if_neg hfir]
    constructor
    · rcases hres : stepsize_loop c log08 s.z (-1) (gridMax + n + 2)
          { s with z := (probe c s.z r s.nom_epsilon).2.1 } (probe c s.z r s.nom_epsilon).2.2 with
        ⟨s1, r1⟩ | ⟨s1, r1, dh⟩ | ⟨s1, r1⟩ | ⟨s1, r1⟩ | ⟨s1, r1⟩
      · exact absurd hres (loop_ne_skipped _ _ _ _ _ _ _ _ _)
      · exact Or.inl ⟨s1, r1, dh, rfl⟩
      · exact Or.inr (Or.inl ⟨s1, r1, rfl⟩)
      · exact Or.inr (Or.inr ⟨s1, r1, rfl⟩)
      · exact absurd hres
          (loop_dirm1_not_fuelOut c log08 s.z (gridMax + n + 2) n _ _ hn h1 (by omega) s1 r1)
    · intro s1 r1 dh hacc
      have hsh := loop_accepted_shape c log08 s.z (-1) _ _ _ _ _ _ hacc
      obtain ⟨r0, e, hdh⟩ := hsh.2.2.2
      have hne : dh ≠ .nan := by rw [hdh]; exact probe_dH_ne_nan c hH0 _ _ _
      refine ⟨fun hcon => absurd hcon hfir, fun _ => ltQ_false_geQ _ _ (hsh.2.2.1 rfl) hne⟩

/-- Witness for C2 at a concrete input: with the always-ascending stub
and the smallest positive double as starting step size, the search
terminates (here by the improper-posterior error). -/
theorem claim2_witness :
    (∃ s1 r1 dh, init_stepsize cGT (-1 / 4) (gridMax + 1 + 2) sTiny () = .accepted s1 r1 dh) ∨
    (∃ s1 r1, init_stepsize cGT (-1 / 4) (gridMax + 1 + 2) sTiny () = .improper s1 r1) ∨
    (∃ s1 r1, init_stepsize cGT (-1 / 4) (gridMax + 1 + 2) sTiny () = .underflow s1 r1) :=
  (claim2_search_terminates cGT (-1 / 4) sTiny () 1 rfl le_rfl
    (by have : 0 < gridMax := by unfold gridMax; positivity
        omega)
    (fun z r0 => ⟨-(z : ℚ), rfl⟩)).1

/-- C3, amended.  With a starting nominal step size grid n in (0, 1e7]:
between two consecutive continuing iterations the nominal step size is
multiplied by exactly 2.0 or exactly 0.5 (the double product, with its
subnormal rounding), and a continuing iteration has neither left (0,
1e7]; every improper-posterior exit carries a nominal step size above
1e7 and every underflow exit carries exactly 0, the errors being raised
immediately after the scaling; if every probe has delta_H strictly
greater than log 0.8 the improper error is raised within
floor(log2(1e7 / eps0)) + 1 scalings, and if every probe has delta_H
strictly less than log 0.8 the underflow error is raised within n + 1
scalings.  The original bound ceil(log2(1e7 / eps0)) is refuted by
claim3_ceil_bound_cex: when 1e7 / eps0 is an exact power of two the
ceiling undercounts by one, since the error can only be raised after a
scaling. -/
theorem claim3_scaling_and_fatal_amended {P R : Type} (c : Collabs P R) (log08 : ℚ)
    (s : BaseHmc P) (r : R) (n : ℕ)
    (hn : s.nom_epsilon = .fin (grid n)) (h1 : 1 ≤ n) (h2 : n ≤ gridMax) :
    (∀ (k : ℕ) (s1 : BaseHmc P) (r1 : R) (s2 : BaseHmc P) (r2 : R),
      init_stepsize c log08 k s r = .fuelOut s1 r1 →
      init_stepsize c log08 (k + 1) s r = .fuelOut s2 r2 →
      (s2.nom_epsilon = s1.nom_epsilon.twice ∨ s2.nom_epsilon = s1.nom_epsilon.halve) ∧
      s2.nom_epsilon.gtQ stepsizeMax = false ∧ s2.nom_epsilon.eqQ 0 = false) ∧
    (∀ (f : ℕ) (s1 : BaseHmc P) (r1 : R),
      init_stepsize c log08 f s r = .improper s1 r1 →
      s1.nom_epsilon.gtQ stepsizeMax = true) ∧
    (∀ (f : ℕ) (s1 : BaseHmc P) (r1 : R),
      init_stepsize c log08 f s r = .underflow s1 r1 → s1.nom_epsilon.eqQ 0 = true) ∧
    ((∀ (z : P) (r0 : R) (e : Dbl), (probe c z r0 e).1.gtQ log08 = true) →
      ∃ s1 r1, init_stepsize c log08 (Nat.log 2 (gridMax / n) + 1) s r = .improper s1 r1) ∧
    ((∀ (z : P) (r0 : R) (e : Dbl), (probe c z r0 e).1.ltQ log08 = true) →
      ∃ s1 r1, init_stepsize c log08 (n + 1) s r = .underflow s1 r1) := by
  have hgf : (s.nom_epsilon.eqQ 0 || s.nom_epsilon.gtQ stepsizeMax) = false := by
    rw [hn, grid_eqQ_zero, grid_gtQ_max]
    simp only [Bool.or_eq_false_iff, decide_eq_false_iff_not]
    omega
  have hgneg : ¬(s.nom_epsilon.eqQ 0 || s.nom_epsilon.gtQ stepsizeMax) = true := by
    rw [hgf]; simp
  refine ⟨?_, ?_, ?_, ?_, ?_⟩
  · intro k s1 r1 s2 r2 hk hk1
    unfold init_stepsize at hk hk1
    rw [if_neg hgneg] at hk hk1
    have hstep := loop_fuelOut_succ c log08 s.z _ k _ _ s1 r1 s2 r2 hk hk1
    refine ⟨?_, by rw [hstep.1]; exact hstep.2.1, by rw [hstep.1]; exact hstep.2.2⟩
    by_cases hfir : (probe c s.z r s.nom_epsilon).1.gtQ log08 = true
    · left
      rw [if_pos hfir] at hstep
      rw [hstep.1]
      unfold scaled
      rw [if_pos rfl]
    · right
      rw [if_neg hfir] at hstep
      rw [hstep.1]
      unfold scaled
      rw [if_neg (by decide)]
  · intro f s1 r1 h
    unfold init_stepsize at h
    rw [if_neg hgneg] at h
    exact loop_improper_gtQ c log08 s.z _ f _ _ s1 r1 h
  · intro f s1 r1 h
    unfold init_stepsize at h
    rw [if_neg hgneg] at h
    exact loop_underflow_eqQ c log08 s.z _ f _ _ s1 r1 h
  · intro hGT
    unfold init_stepsize
    rw [if_neg hgneg, if_pos (hGT s.z r s.nom_epsilon)]
    have harith : gridMax < 2 ^ (Nat.log 2 (gridMax / n) + 1) * n := by
      have hlt := Nat.lt_pow_succ_log_self (by norm_num : 1 < 2) (gridMax / n)
      rw [Nat.div_lt_iff_lt_mul h1] at hlt
      exact hlt
    exact loop_dir1_improper c log08 s.z hGT _ n _ _ hn h2 harith
  · intro hLT
    unfold init_stepsize
    rw [if_neg hgneg,
      if_neg (by rw [ltQ_true_gtQ_false _ _ (hLT s.z r s.nom_epsilon)]; simp)]
    exact loop_dirm1_underflow c log08 s.z hLT _ n _ _ hn h1 h2 le_rfl

/-- Counterexample to the bound of C3 as stated: with the starting step
size exactly 1e7 the claimed bound ceil(log2(1e7 / eps0)) is 0 scalings,
but with zero loop iterations no error has been raised (the run is still
in progress), and the improper-posterior error arrives only with the
first iteration, after one doubling. -/
theorem claim3_ceil_bound_cex :
    Nat.clog 2 1 = 0 ∧
    init_stepsize cGT (-1 / 4) 0 sMax () =
      .fuelOut { z := 1, nom_epsilon := .fin (10 ^ 7), epsilon := .fin (1 / 10), epsilon_jitter := .fin 0 } () ∧
    init_stepsize cGT (-1 / 4) 1 sMax () =
      .improper { z := 1, nom_epsilon := .fin 20000000, epsilon := .fin (1 / 10), epsilon_jitter := .fin 0 } () := by
  refine ⟨by simp, ?_, ?_⟩ <;>
    norm_num [init_stepsize, stepsize_loop, probe, scaled, cGT, sMax, s01,
      Dbl.eqQ, Dbl.gtQ, Dbl.ltQ, Dbl.sub, Dbl.isNaN, Dbl.twice, stepsizeMax]

/-- Witness for C3 at a concrete input: with the always-descending stub
and starting step size 1e7 (grid index gridMax), the underflow error is
raised within gridMax + 1 scalings. -/
theorem claim3_witness :
    ∃ s1 r1, init_stepsize cLT (-1 / 4) (gridMax + 1) sMax () = .underflow s1 r1 :=
  (claim3_scaling_and_fatal_amended cLT (-1 / 4) sMax () gridMax
    (by have hg : grid gridMax = (10 ^ 7 : ℚ) := by
          unfold grid gridMax
          push_cast
          rw [mul_div_assoc, div_self (by positivity), mul_one]
          norm_num
        rw [hg]; rfl)
    (by have : 0 < gridMax := by unfold gridMax; positivity
        omega)
    le_rfl).2.2.2.2
    (by intro z r0 e
        simp [probe, cLT, Dbl.isNaN, Dbl.sub, Dbl.ltQ]
        linarith)

/-- C4: the search direction is decided exactly once, from the first
probe: every scaling between consecutive continuing iterations, at any
depth k, is the doubling when the first delta_H compared strictly
greater than log 0.8 and the halving otherwise — the direction is never
recomputed from later probes. -/
theorem claim4_direction_fixed {P R : Type} (c : Collabs P R) (log08 : ℚ)
    (s : BaseHmc P) (r : R) (k : ℕ) (s1 : BaseHmc P) (r1 : R) (s2 : BaseHmc P) (r2 : R)
    (hk : init_stepsize c log08 k s r = .fuelOut s1 r1)
    (hk1 : init_stepsize c log08 (k + 1) s r = .fuelOut s2 r2) :
    s2.nom_epsilon =
      if (probe c s.z r s.nom_epsilon).1.gtQ log08 then s1.nom_epsilon.twice
      else s1.nom_epsilon.halve := by
  unfold init_stepsize at hk hk1
  by_cases hg : (s.nom_epsilon.eqQ 0 || s.nom_epsilon.gtQ stepsizeMax) = true
  · rw [if_pos hg] at hk
    simp at hk
  · rw [if_neg hg] at hk hk1
    have hstep := loop_fuelOut_succ c log08 s.z _ k _ _ s1 r1 s2 r2 hk hk1
    by_cases hfir : (probe c s.z r s.nom_epsilon).1.gtQ log08 = true
    · rw [if_pos hfir] at hstep ⊢
      rw [hstep.1]
      unfold scaled
      rw [if_pos rfl]
    · rw [if_neg hfir] at hstep ⊢
      rw [hstep.1]
      unfold scaled
      rw [if_neg (by decide)]

/-- Witness for C4 at a concrete input: the run of the ascending stub
from the default state at depths 0 and 1, where the scaling is the
doubling fixed by the first probe. -/
theorem claim4_witness :
    ({ z := 1, nom_epsilon := .fin (1 / 5), epsilon := .fin (1 / 10), epsilon_jitter := .fin 0 } : BaseHmc ℕ).nom_epsilon =
      if (probe cGT s01.z () s01.nom_epsilon).1.gtQ (-1 / 4) then
        ({ z := 1, nom_epsilon := .fin (1 / 10), epsilon := .fin (1 / 10), epsilon_jitter := .fin 0 } : BaseHmc ℕ).nom_epsilon.twice
      else
        ({ z := 1, nom_epsilon := .fin (1 / 10), epsilon := .fin (1 / 10), epsilon_jitter := .fin 0 } : BaseHmc ℕ).nom_epsilon.halve :=
  claim4_direction_fixed cGT (-1 / 4) s01 () 0 _ () _ ()
    (by norm_num [init_stepsize, stepsize_loop, probe, scaled, cGT, s01,
      Dbl.eqQ, Dbl.gtQ, Dbl.ltQ, Dbl.sub, Dbl.isNaN, Dbl.twice, stepsizeMax])
    (by norm_num [init_stepsize, stepsize_loop, probe, scaled, cGT, s01,
      Dbl.eqQ, Dbl.gtQ, Dbl.ltQ, Dbl.sub, Dbl.isNaN, Dbl.twice, stepsizeMax])

/-- C6: sample_stepsize sets the current step size to the nominal one;
with a zero jitter fraction that is exact and no uniform draw is
consumed, and with a nonzero jitter fraction j it multiplies by
1 + j (2 u - 1) for exactly one fresh draw u, placing the current step
size in the interval from nominal (1 - j) to nominal (1 + j); the
nominal step size itself is unchanged in every case. -/
theorem claim6_sample_stepsize {P R : Type} (unif : R → ℚ × R) (s : BaseHmc P) (r : R)
    (j q : ℚ) (hj : s.epsilon_jitter = .fin j) (hq : s.nom_epsilon = .fin q)
    (hq0 : 0 ≤ q) (hj0 : 0 ≤ j) (hu0 : 0 ≤ (unif r).1) (hu1 : (unif r).1 ≤ 1) :
    ((sample_stepsize unif s r).1.nom_epsilon = s.nom_epsilon) ∧
    (j = 0 → sample_stepsize unif s r = ({ s with epsilon := s.nom_epsilon }, r)) ∧
    (j ≠ 0 →
      sample_stepsize unif s r =
        ({ s with epsilon := .fin (q * (1 + j * (2 * (unif r).1 - 1))) }, (unif r).2) ∧
      q * (1 - j) ≤ q * (1 + j * (2 * (unif r).1 - 1)) ∧
      q * (1 + j * (2 * (unif r).1 - 1)) ≤ q * (1 + j)) := by
  refine ⟨?_, ?_, ?_⟩
  · unfold sample_stepsize
    split_ifs with ht
    · rfl
    · rfl
  · intro hj0'
    unfold sample_stepsize
    rw [if_neg (by rw [hj, hj0']; simp [Dbl.truthy])]
  · intro hjne
    have ht : s.epsilon_jitter.truthy = true := by
      rw [hj]; simp [Dbl.truthy, hjne]
    refine ⟨?_, ?_, ?_⟩
    · unfold sample_stepsize
      rw [if_pos ht, hj, hq]
      rfl
    · nlinarith [mul_nonneg (mul_nonneg hq0 hj0) hu0]
    · nlinarith [mul_nonneg (mul_nonneg hq0 hj0) (by linarith : (0 : ℚ) ≤ 1 - (unif r).1)]

/-- Witness for C6 at a concrete input: jitter one half, nominal 1/10,
draw one half. -/
theorem claim6_witness :
    sample_stepsize unifHalf sJit () =
      ({ sJit with epsilon := .fin (1 / 10 * (1 + 1 / 2 * (2 * (unifHalf ()).1 - 1))) },
       (unifHalf ()).2) :=
  ((claim6_sample_stepsize unifHalf sJit () (1 / 2) (1 / 10) rfl rfl (by norm_num) (by norm_num)
    (by norm_num [unifHalf]) (by norm_num [unifHalf])).2.2 (by norm_num)).1

end Stan
